import Mathlib

/-!
Shallow embedding of the CLI to-do list manager (`main.go`) and proofs of the
specified properties.

Modelling conventions:
* Go `time.Time` values in this program only ever carry a calendar date with a
  zero time-of-day in UTC (they are produced by `time.Parse("2006-01-02", ...)`
  or are the zero value), so deadlines are embedded as a `Date` record of
  year/month/day; the Go zero time corresponds to `zeroDate` (0001-01-01).
* The persistent file is modelled at the JSON-value level: `saveTasks`
  produces the JSON value that `json.MarshalIndent` renders, and `loadTasks`
  consumes a `FileState` that is either missing, unreadable, syntactically
  invalid JSON, or a parsed JSON value handed to the `json.Unmarshal` model.
  The RFC 3339 rendering/parsing of deadlines, where the interesting content
  of the round trip lies, is modelled concretely down to the characters.
* `os.Exit` and printing are modelled by `runCLI`, which returns the exit
  code and the final in-memory collection.
-/

namespace Todo

/-- A calendar date, embedding the date component of Go `time.Time`.
The Go zero time is year 1, January 1. -/
structure Date where
  year : Nat
  month : Nat
  day : Nat
  deriving DecidableEq, Repr

/-- The Go zero `time.Time`, as a date: 0001-01-01. -/
def zeroDate : Date := ⟨1, 1, 1⟩

/-- Embeds the Go struct `Task` (`main.go` lines 13-18). -/
structure Task where
  id : Int
  title : String
  done : Bool
  deadline : Date
  deriving DecidableEq, Repr

/-- Go leap-year rule (`time.isLeap`): divisible by 4 and not by 100,
or divisible by 400. -/
def isLeapYear (y : Nat) : Bool :=
  y % 4 = 0 && (y % 100 != 0 || y % 400 = 0)

/-- Days in a month, as Go `time.daysIn` computes for date validation. -/
def daysInMonth (y m : Nat) : Nat :=
  if m = 2 then (if isLeapYear y then 29 else 28)
  else if m = 4 ∨ m = 6 ∨ m = 9 ∨ m = 11 then 30
  else 31

/-- A decimal digit character read as a number, Go `getnum` style. -/
def readDigit (c : Char) : Option Nat :=
  if c.isDigit then some (c.toNat - 48) else none

/-- Parse a string in Go layout `"2006-01-02"` (`time.Parse` at
`main.go` line 63): exactly four year digits, a dash, two month digits, a
dash, two day digits, nothing after; the month must be 1..12 and the day
within the month, as Go validates. -/
def parseGoDate (s : String) : Option Date :=
  match s.toList with
  | [y1, y2, y3, y4, '-', m1, m2, '-', d1, d2] => do
    let a ← readDigit y1
    let b ← readDigit y2
    let c ← readDigit y3
    let e ← readDigit y4
    let f ← readDigit m1
    let g ← readDigit m2
    let h ← readDigit d1
    let i ← readDigit d2
    let y := 1000 * a + 100 * b + 10 * c + e
    let m := 10 * f + g
    let d := 10 * h + i
    if 1 ≤ m ∧ m ≤ 12 ∧ 1 ≤ d ∧ d ≤ daysInMonth y m then some ⟨y, m, d⟩
    else none
  | _ => none

/-- Signed 64-bit wrap-around: the value a Go `int` (64-bit on the
platforms this program targets) holds after an addition that overflows.
`9223372036854775808 = 2 ^ 63` and `18446744073709551616 = 2 ^ 64`. -/
def wrapInt64 (x : Int) : Int :=
  (x + 9223372036854775808) % 18446744073709551616 - 9223372036854775808

/-- Embeds `addTask` (`main.go` lines 47-78): the new identifier is 1 for an
empty collection, otherwise the running maximum of the existing identifiers
plus one — a Go `int` addition, so it wraps at 64 bits when the maximum is
the largest `int`; a non-empty deadline string is parsed leniently, a parse
failure leaving the zero date in place. -/
def addTask (tasks : List Task) (title : String) (deadline : String) :
    List Task × Int :=
  let newID : Int :=
    match tasks with
    | [] => 1
    | t :: ts =>
      wrapInt64
        ((ts.foldl (fun m task => if task.id > m then task.id else m) t.id)
          + 1)
  let dl : Date :=
    if deadline ≠ "" then
      match parseGoDate deadline with
      | some parsed => parsed
      | none => zeroDate
    else zeroDate
  (tasks ++ [{ id := newID, title := title, done := false, deadline := dl }],
   newID)

/-- Embeds `deleteTask` (`main.go` lines 81-88): remove the first task with
the given identifier; report whether one was found. -/
def deleteTask : List Task → Int → List Task × Bool
  | [], _ => ([], false)
  | t :: ts, id =>
    if t.id = id then (ts, true)
    else
      let r := deleteTask ts id
      (t :: r.1, r.2)

/-- Embeds `markDone` (`main.go` lines 91-99): set the completion flag of the
first task with the given identifier; report whether one was found. -/
def markDone : List Task → Int → List Task × Bool
  | [], _ => ([], false)
  | t :: ts, id =>
    if t.id = id then ({ t with done := true } :: ts, true)
    else
      let r := markDone ts id
      (t :: r.1, r.2)

/-- Embeds `clearTasks` (`main.go` lines 102-104). -/
def clearTasks : List Task := []

/-! ## The persistent store

`saveTasks` runs the collection through `json.MarshalIndent` and writes the
file whole; `loadTasks` reads the file and runs it through `json.Unmarshal`
into `[]Task`. The file is modelled at the JSON-value level. -/

/-- JSON values, the image of Go's `encoding/json` on this program's data
(numbers restricted to integers, the only ones the program produces). -/
inductive Json where
  | null
  | bool (b : Bool)
  | num (n : Int)
  | str (s : String)
  | arr (elems : List Json)
  | obj (fields : List (String × Json))

/-- The last two characters of the decimal rendering of `n`, zero padded:
Go's `%02d`-style padding used by `Time.Format` for months and days. -/
def pad2 (n : Nat) : List Char :=
  [Nat.digitChar (n / 10 % 10), Nat.digitChar (n % 10)]

/-- Four-digit zero-padded year, as `Time.Format`/`MarshalJSON` render years
in 0..9999 (Go refuses to marshal a `time.Time` outside that range). -/
def pad4 (n : Nat) : List Char :=
  [Nat.digitChar (n / 1000 % 10), Nat.digitChar (n / 100 % 10),
   Nat.digitChar (n / 10 % 10), Nat.digitChar (n % 10)]

/-- The RFC 3339 string `time.Time.MarshalJSON` produces for a date at
midnight UTC, the only times this program holds. -/
def fmtRFC3339 (d : Date) : String :=
  ⟨pad4 d.year ++ '-' :: pad2 d.month ++ '-' :: pad2 d.day ++
    "T00:00:00Z".toList⟩

/-- The date rendering `Time.Format("2006-01-02")` used by the `list`
command (`main.go` line 169). -/
def fmtGoDate (d : Date) : String :=
  ⟨pad4 d.year ++ '-' :: pad2 d.month ++ '-' :: pad2 d.day⟩

/-- Parse of an RFC 3339 timestamp by `time.Time.UnmarshalJSON`, restricted
to the midnight-UTC form this program ever writes: four year digits, two
month digits, two day digits, the literal suffix `T00:00:00Z`, with Go's
month and day-of-month range validation. -/
def parseRFC3339 (s : String) : Option Date :=
  match s.toList with
  | y1 :: y2 :: y3 :: y4 :: '-' :: m1 :: m2 :: '-' :: d1 :: d2 :: rest => do
    let a ← readDigit y1
    let b ← readDigit y2
    let c ← readDigit y3
    let e ← readDigit y4
    let f ← readDigit m1
    let g ← readDigit m2
    let h ← readDigit d1
    let i ← readDigit d2
    let y := 1000 * a + 100 * b + 10 * c + e
    let m := 10 * f + g
    let d := 10 * h + i
    if rest = "T00:00:00Z".toList ∧
        1 ≤ m ∧ m ≤ 12 ∧ 1 ≤ d ∧ d ≤ daysInMonth y m then
      some ⟨y, m, d⟩
    else none
  | _ => none

/-- `json.Marshal` on one `Task`: field order follows the struct, keys are
the lowercase JSON tags; `omitempty` has no effect on a `time.Time` struct
field, so `deadline` is always emitted. -/
def encodeTask (t : Task) : Json :=
  .obj [("id", .num t.id), ("title", .str t.title), ("done", .bool t.done),
        ("deadline", .str (fmtRFC3339 t.deadline))]

/-- `json.Marshal` on `[]Task`. -/
def encodeTasks (ts : List Task) : Json :=
  .arr (ts.map encodeTask)

/-- The zero Go `Task` value, the starting point of `json.Unmarshal` for
each array element. -/
def zeroTask : Task :=
  { id := 0, title := "", done := false, deadline := zeroDate }

/-- Go's `encoding/json` field-name matching for this struct's lowercase
tags: an exact match or an ASCII case-insensitive one (Go's `foldName`). -/
def keyMatches (k field : String) : Bool :=
  k = field || k.toList.map Char.toLower = field.toList

/-- One key/value pair of a JSON object applied to a partially decoded
`Task`, as `json.Unmarshal` does: a matching key must carry a value of the
field's type (`deadline` a string parsing as RFC 3339), `null` is ignored,
unknown keys are skipped, later duplicates overwrite. -/
def setField (t : Task) (k : String) (v : Json) : Option Task :=
  if keyMatches k "id" then
    match v with
    | .num n => some { t with id := n }
    | .null => some t
    | _ => none
  else if keyMatches k "title" then
    match v with
    | .str s => some { t with title := s }
    | .null => some t
    | _ => none
  else if keyMatches k "done" then
    match v with
    | .bool b => some { t with done := b }
    | .null => some t
    | _ => none
  else if keyMatches k "deadline" then
    match v with
    | .str s =>
      match parseRFC3339 s with
      | some d => some { t with deadline := d }
      | none => none
    | .null => some t
    | _ => none
  else some t

/-- `json.Unmarshal` of one array element into a `Task`: an object updates
the zero task field by field, `null` leaves the zero task, anything else is
a type error. -/
def decodeTask (j : Json) : Option Task :=
  match j with
  | .obj fields => fields.foldlM (fun t kv => setField t kv.1 kv.2) zeroTask
  | .null => some zeroTask
  | _ => none

/-- Elementwise decoding of the array: the whole decode errors as soon as
one element does. -/
def decodeTaskList : List Json → Option (List Task)
  | [] => some []
  | j :: js => do
    let t ← decodeTask j
    let ts ← decodeTaskList js
    pure (t :: ts)

/-- `json.Unmarshal` of the file's JSON value into `[]Task`: an array
decodes elementwise, `null` yields the nil slice, anything else is a type
error. -/
def decodeTasks (j : Json) : Option (List Task) :=
  match j with
  | .arr elems => decodeTaskList elems
  | .null => some []
  | _ => none

/-- The observable states of `tasks.txt` as `loadTasks` distinguishes them. -/
inductive FileState where
  | missing
  | unreadable
  | invalid
  | valid (j : Json)

/-- The errors `loadTasks` and `saveTasks` report. -/
inductive StoreError where
  | ioError
  | dataCorruption
  deriving DecidableEq, Repr

/-- Embeds `loadTasks` (`main.go` lines 21-35): a missing file is the empty
collection; any other read error is passed up; a file whose contents fail
`json.Unmarshal` — ill-formed JSON text or a JSON value of the wrong shape —
is a corruption error. -/
def loadTasks : FileState → Except StoreError (List Task)
  | .missing => .ok []
  | .unreadable => .error .ioError
  | .invalid => .error .dataCorruption
  | .valid j =>
    match decodeTasks j with
    | some ts => .ok ts
    | none => .error .dataCorruption

/-- Whether the write of the file itself succeeds (permissions, disk). -/
inductive DiskOutcome where
  | ok
  | writeError
  deriving DecidableEq, Repr

/-- Embeds `saveTasks` (`main.go` lines 38-44): `json.MarshalIndent` fails
if some deadline's year is outside Go's marshallable range 0..9999,
otherwise the file is overwritten whole with the rendered collection —
unless the write itself fails. Returns the new file state on success. -/
def saveTasks (tasks : List Task) (disk : DiskOutcome) : Option FileState :=
  if tasks.all (fun t => t.deadline.year ≤ 9999) then
    match disk with
    | .ok => some (.valid (encodeTasks tasks))
    | .writeError => none
  else none

/-- The dates representable as a Go `time.Time` that this program can
marshal: year at most 9999 (Go refuses to marshal larger years) and a real
calendar date, which `time.Date`'s internal normalisation guarantees for
every `time.Time`. -/
def validDate (d : Date) : Prop :=
  d.year ≤ 9999 ∧ 1 ≤ d.month ∧ d.month ≤ 12 ∧ 1 ≤ d.day ∧
    d.day ≤ daysInMonth d.year d.month

instance (d : Date) : Decidable (validDate d) := by
  unfold validDate
  infer_instance

/-! ## The command dispatcher (`main`) -/

/-- ANSI color prefixes (`main.go` lines 117-122). -/
def green : String := "\x1b[32m"

def red : String := "\x1b[31m"

def yellow : String := "\x1b[33m"

def reset : String := "\x1b[0m"

/-- Digits of a decimal numeral, `strconv.Atoi` style: at least one digit,
all characters digits. -/
def digitsToNat (ds : List Char) : Option Nat :=
  if ds ≠ [] ∧ ds.all Char.isDigit then
    some (ds.foldl (fun acc c => 10 * acc + (c.toNat - 48)) 0)
  else none

/-- Embeds `strconv.Atoi` on the identifier argument: an optional sign
followed by decimal digits (machine-int range ignored: the identifiers this
program produces stay far below it). -/
def atoi (s : String) : Option Int :=
  match s.toList with
  | '+' :: ds => (digitsToNat ds).map Int.ofNat
  | '-' :: ds => (digitsToNat ds).map (fun n => -(n : Int))
  | ds => (digitsToNat ds).map Int.ofNat

/-- The deadline suffix the `list` command appends to a task's line
(`main.go` lines 167-170): empty when the stored deadline is the zero time. -/
def deadlineSuffix (t : Task) : String :=
  if t.deadline = zeroDate then ""
  else " (Deadline: " ++ fmtGoDate t.deadline ++ ")"

/-- One line of `list` output for a task (`main.go` lines 162-171). -/
def renderTask (t : Task) : String :=
  let status :=
    if t.done then green ++ "Done" ++ reset else red ++ "Not Done" ++ reset
  "#" ++ toString t.id ++ ": " ++ t.title ++ " [" ++ status ++ "]" ++
    deadlineSuffix t

/-- The `switch command` body of `main` (`main.go` lines 140-219): `none`
means the process called `os.Exit(1)` inside the switch (usage error,
non-numeric identifier, or identifier not found), leaving the collection as
it stood; `some` is the collection as the switch leaves it. -/
def dispatch (tasks : List Task) (command : String) (rest : List String) :
    Option (List Task) :=
  if command = "add" then
    match rest with
    | [] => none
    | title :: more =>
      let deadline := match more with | [] => "" | d :: _ => d
      some (addTask tasks title deadline).1
  else if command = "list" then some tasks
  else if command = "delete" then
    match rest with
    | [] => none
    | idStr :: _ =>
      match atoi idStr with
      | none => none
      | some id =>
        let r := deleteTask tasks id
        if r.2 then some r.1 else none
  else if command = "done" then
    match rest with
    | [] => none
    | idStr :: _ =>
      match atoi idStr with
      | none => none
      | some id =>
        let r := markDone tasks id
        if r.2 then some r.1 else none
  else if command = "clear" then some clearTasks
  else none

/-- The exit code and final in-memory collection of one run. -/
structure RunResult where
  exitCode : Nat
  tasks : List Task
  deriving DecidableEq, Repr

/-- Embeds `main` (`main.go` lines 124-228) over the initial file state, the
command-line arguments after the program name, and the disk's disposition
toward the final write: load (exit 1 on failure), dispatch on the command
(exit 1 on usage error or not-found), then save for the four mutating
commands (exit 1 on marshal or write failure). -/
def runCLI (fs : FileState) (args : List String) (disk : DiskOutcome) :
    RunResult :=
  match loadTasks fs with
  | .error _ => ⟨1, []⟩
  | .ok tasks0 =>
    match args with
    | [] => ⟨1, tasks0⟩
    | command :: rest =>
      match dispatch tasks0 command rest with
      | none => ⟨1, tasks0⟩
      | some tasks1 =>
        if command = "add" ∨ command = "delete" ∨ command = "done" ∨
            command = "clear" then
          match saveTasks tasks1 disk with
          | some _ => ⟨0, tasks1⟩
          | none => ⟨1, tasks1⟩
        else ⟨0, tasks1⟩

/-! ## Helper lemmas -/

lemma daysInMonth_le_31 (y m : Nat) : daysInMonth y m ≤ 31 := by
  unfold daysInMonth
  split
  · split <;> omega
  · split <;> omega

lemma readDigit_digitChar : ∀ k, k < 10 → readDigit (Nat.digitChar k) = some k := by
  decide

/-- Formatting a representable date as RFC 3339 and parsing it back is the
identity. -/
lemma parseRFC3339_fmtRFC3339 (d : Date) (h : validDate d) :
    parseRFC3339 (fmtRFC3339 d) = some d := by
  obtain ⟨hy, hm1, hm2, hd1, hd2⟩ := h
  obtain ⟨y, m, d⟩ := d
  simp only at hy hm1 hm2 hd1 hd2
  have hd31 : daysInMonth y m ≤ 31 := daysInMonth_le_31 y m
  have e1 := readDigit_digitChar (y / 1000 % 10) (Nat.mod_lt _ (by omega))
  have e2 := readDigit_digitChar (y / 100 % 10) (Nat.mod_lt _ (by omega))
  have e3 := readDigit_digitChar (y / 10 % 10) (Nat.mod_lt _ (by omega))
  have e4 := readDigit_digitChar (y % 10) (Nat.mod_lt _ (by omega))
  have e5 := readDigit_digitChar (m / 10 % 10) (Nat.mod_lt _ (by omega))
  have e6 := readDigit_digitChar (m % 10) (Nat.mod_lt _ (by omega))
  have e7 := readDigit_digitChar (d / 10 % 10) (Nat.mod_lt _ (by omega))
  have e8 := readDigit_digitChar (d % 10) (Nat.mod_lt _ (by omega))
  have hyy : 1000 * (y / 1000 % 10) + 100 * (y / 100 % 10) +
      10 * (y / 10 % 10) + y % 10 = y := by omega
  have hmm : 10 * (m / 10 % 10) + m % 10 = m := by omega
  have hdd : 10 * (d / 10 % 10) + d % 10 = d := by omega
  simp only [fmtRFC3339, pad4, pad2, parseRFC3339, List.cons_append,
    List.nil_append, String.toList]
  simp only [e1, e2, e3, e4, e5, e6, e7, e8, Option.bind_eq_bind,
    Option.some_bind]
  simp only [hyy, hmm, hdd]
  simp [hm1, hm2, hd1, hd2]

lemma setField_deadline_str (x : Task) (s : String) :
    setField x "deadline" (Json.str s) =
      match parseRFC3339 s with
      | some d => some { x with deadline := d }
      | none => none := rfl

/-- `json.Unmarshal` inverts `json.Marshal` on one representable task. -/
lemma decodeTask_encodeTask (t : Task) (h : validDate t.deadline) :
    decodeTask (encodeTask t) = some t := by
  obtain ⟨id, title, done, dl⟩ := t
  have step : decodeTask (encodeTask ⟨id, title, done, dl⟩) =
      (setField { id := id, title := title, done := done, deadline := zeroDate }
        "deadline" (Json.str (fmtRFC3339 dl))).bind some := by
    simp only [decodeTask, encodeTask, List.foldlM]
    rfl
  rw [step, setField_deadline_str, parseRFC3339_fmtRFC3339 dl h]
  rfl

/-- `json.Unmarshal` inverts `json.Marshal` on a representable collection. -/
lemma decodeTasks_encodeTasks (ts : List Task)
    (h : ∀ t ∈ ts, validDate t.deadline) :
    decodeTasks (encodeTasks ts) = some ts := by
  induction ts with
  | nil => rfl
  | cons t ts ih =>
    have ih' := ih (fun x hx => h x (List.mem_cons_of_mem t hx))
    simp only [encodeTasks, decodeTasks, List.map_cons, decodeTaskList]
      at ih' ⊢
    rw [decodeTask_encodeTask t (h t (List.mem_cons_self t ts))]
    simp only [Option.bind_eq_bind, Option.some_bind]
    rw [ih']
    rfl

lemma goFold_eq_max_fold (l : List Task) (a : Int) :
    l.foldl (fun m task => if task.id > m then task.id else m) a
      = (l.map Task.id).foldl max a := by
  induction l generalizing a with
  | nil => rfl
  | cons t l ih =>
    simp only [List.foldl_cons, List.map_cons]
    rw [ih]
    congr 1
    rw [max_def]
    split <;> split <;> omega

lemma foldl_max_bounds (l : List Int) (a : Int) :
    a ≤ l.foldl max a ∧ ∀ x ∈ l, x ≤ l.foldl max a := by
  induction l generalizing a with
  | nil => simp
  | cons b l ih =>
    simp only [List.foldl_cons]
    obtain ⟨h1, h2⟩ := ih (max a b)
    refine ⟨le_trans (le_max_left a b) h1, ?_⟩
    intro x hx
    rcases List.mem_cons.mp hx with h | h
    · rw [h]
      exact le_trans (le_max_right a b) h1
    · exact h2 x h

/-- An integer already in the `int64` range is unchanged by the wrap. -/
lemma wrapInt64_eq_self (x : Int) (h1 : -9223372036854775808 ≤ x)
    (h2 : x ≤ 9223372036854775807) : wrapInt64 x = x := by
  unfold wrapInt64
  rw [Int.emod_eq_of_lt (by omega) (by omega)]
  omega

/-- The running maximum of a fold is the seed or one of the elements. -/
lemma foldl_max_mem (l : List Int) (a : Int) :
    l.foldl max a = a ∨ l.foldl max a ∈ l := by
  induction l generalizing a with
  | nil => exact Or.inl rfl
  | cons b l ih =>
    simp only [List.foldl_cons]
    rcases ih (max a b) with h | h
    · rcases max_choice a b with hm | hm
      · exact Or.inl (h.trans hm)
      · exact Or.inr (List.mem_cons.mpr (Or.inl (h.trans hm)))
    · exact Or.inr (List.mem_cons_of_mem b h)

lemma max?_mem_ids (tasks : List Task) (m : Int)
    (hm : (tasks.map Task.id).max? = some m) : m ∈ tasks.map Task.id := by
  cases tasks with
  | nil => exact Option.noConfusion hm
  | cons a ts =>
    simp only [List.map_cons, List.max?] at hm
    cases hm
    rcases foldl_max_mem (ts.map Task.id) a.id with h | h
    · rw [h]
      exact List.mem_cons_self a.id _
    · exact List.mem_cons_of_mem a.id h

lemma addTask_newID_eq (tasks : List Task) (title deadline : String) :
    (addTask tasks title deadline).2 =
      match (tasks.map Task.id).max? with
      | none => 1
      | some m => wrapInt64 (m + 1) := by
  cases tasks with
  | nil => rfl
  | cons t ts =>
    simp only [addTask, List.map_cons, List.max?]
    rw [goFold_eq_max_fold]

lemma addTask_lt_newID (tasks : List Task) (title deadline : String)
    (hrange : ∀ t ∈ tasks,
      -9223372036854775808 ≤ t.id ∧ t.id < 9223372036854775807) :
    ∀ t ∈ tasks, t.id < (addTask tasks title deadline).2 := by
  cases tasks with
  | nil => simp
  | cons a ts =>
    intro t ht
    have hid : (addTask (a :: ts) title deadline).2 =
        wrapInt64 ((ts.map Task.id).foldl max a.id + 1) := by
      simp only [addTask]
      rw [goFold_eq_max_fold]
    have hFrange : -9223372036854775808 ≤ (ts.map Task.id).foldl max a.id ∧
        (ts.map Task.id).foldl max a.id < 9223372036854775807 := by
      rcases foldl_max_mem (ts.map Task.id) a.id with h | h
      · rw [h]
        exact hrange a (List.mem_cons_self a ts)
      · obtain ⟨u, hu, huid⟩ := List.mem_map.mp h
        rw [← huid]
        exact hrange u (List.mem_cons_of_mem a hu)
    have hwrap : wrapInt64 ((ts.map Task.id).foldl max a.id + 1) =
        (ts.map Task.id).foldl max a.id + 1 :=
      wrapInt64_eq_self _ (by omega) (by omega)
    rw [hid, hwrap]
    obtain ⟨h1, h2⟩ := foldl_max_bounds (ts.map Task.id) a.id
    rcases List.mem_cons.mp ht with h | h
    · subst h
      exact lt_of_le_of_lt h1 (lt_add_one _)
    · exact lt_of_le_of_lt (h2 t.id (List.mem_map_of_mem Task.id h)) (lt_add_one _)

lemma deleteTask_not_found (ts : List Task) (id : Int)
    (h : ∀ t ∈ ts, t.id ≠ id) : deleteTask ts id = (ts, false) := by
  induction ts with
  | nil => rfl
  | cons a ts ih =>
    have ha : ¬(a.id = id) := h a (List.mem_cons_self a ts)
    simp only [deleteTask, if_neg ha]
    rw [ih (fun t ht => h t (List.mem_cons_of_mem a ht))]

lemma markDone_not_found (ts : List Task) (id : Int)
    (h : ∀ t ∈ ts, t.id ≠ id) : markDone ts id = (ts, false) := by
  induction ts with
  | nil => rfl
  | cons a ts ih =>
    have ha : ¬(a.id = id) := h a (List.mem_cons_self a ts)
    simp only [markDone, if_neg ha]
    rw [ih (fun t ht => h t (List.mem_cons_of_mem a ht))]



lemma readDigit_le9 (c : Char) (k : Nat) (h : readDigit c = some k) : k ≤ 9 := by
  unfold readDigit at h
  split at h
  · rename_i hd
    simp [Char.isDigit] at hd
    have h57 : c.toNat ≤ 57 := hd.2
    injection h with h'
    omega
  · exact Option.noConfusion h



lemma parseRFC3339_year_le (s : String) (d : Date)
    (h : parseRFC3339 s = some d) : d.year ≤ 9999 := by
  unfold parseRFC3339 at h
  split at h
  · simp only [Option.bind_eq_bind, Option.bind_eq_some] at h
    obtain ⟨a, ha, b, hb, c, hc, e, he, f, hf, g, hg, p, hp, q, hq, hfin⟩ := h
    split at hfin
    · have ha9 := readDigit_le9 _ _ ha
      have hb9 := readDigit_le9 _ _ hb
      have hc9 := readDigit_le9 _ _ hc
      have he9 := readDigit_le9 _ _ he
      cases hfin
      simp only
      omega
    · exact Option.noConfusion hfin
  · exact Option.noConfusion h



lemma setField_year_le (t t' : Task) (k : String) (v : Json)
    (ht : t.deadline.year ≤ 9999) (h : setField t k v = some t') :
    t'.deadline.year ≤ 9999 := by
  unfold setField at h
  split at h
  · split at h <;> first
      | (cases h; simpa using ht)
      | exact Option.noConfusion h
  · split at h
    · split at h <;> first
        | (cases h; simpa using ht)
        | exact Option.noConfusion h
    · split at h
      · split at h <;> first
          | (cases h; simpa using ht)
          | exact Option.noConfusion h
      · split at h
        · split at h
          · rename_i s
            split at h
            · rename_i dd hdd
              cases h
              simpa using parseRFC3339_year_le s dd hdd
            · exact Option.noConfusion h
          · cases h
            simpa using ht
          · exact Option.noConfusion h
        · cases h
          simpa using ht



lemma foldlM_setField_year_le (fields : List (String × Json)) (t0 t : Task)
    (h0 : t0.deadline.year ≤ 9999)
    (h : fields.foldlM (fun t kv => setField t kv.1 kv.2) t0 = some t) :
    t.deadline.year ≤ 9999 := by
  induction fields generalizing t0 with
  | nil =>
    simp only [List.foldlM] at h
    cases h
    exact h0
  | cons kv fields ih =>
    simp only [List.foldlM, Option.bind_eq_bind, Option.bind_eq_some] at h
    obtain ⟨t1, h1, h2⟩ := h
    exact ih t1 (setField_year_le t0 t1 kv.1 kv.2 h0 h1) (by simpa using h2)

lemma decodeTask_year_le (j : Json) (t : Task) (h : decodeTask j = some t) :
    t.deadline.year ≤ 9999 := by
  unfold decodeTask at h
  split at h
  · exact foldlM_setField_year_le _ _ _ (by simp [zeroTask, zeroDate]) h
  · cases h
    simp [zeroTask, zeroDate]
  · exact Option.noConfusion h

lemma decodeTaskList_year_le (js : List Json) (ts : List Task)
    (h : decodeTaskList js = some ts) : ∀ t ∈ ts, t.deadline.year ≤ 9999 := by
  induction js generalizing ts with
  | nil =>
    simp only [decodeTaskList] at h
    cases h
    simp
  | cons j js ih =>
    simp only [decodeTaskList, Option.bind_eq_bind, Option.bind_eq_some] at h
    obtain ⟨t1, h1, rest, h2, h3⟩ := h
    cases h3
    intro t ht
    rcases List.mem_cons.mp ht with hh | hh
    · rw [hh]
      exact decodeTask_year_le j t1 h1
    · exact ih rest h2 t hh

lemma loadTasks_year_le (fs : FileState) (ts : List Task)
    (h : loadTasks fs = .ok ts) : ∀ t ∈ ts, t.deadline.year ≤ 9999 := by
  cases fs with
  | missing =>
    cases h
    simp
  | unreadable => exact Except.noConfusion h
  | invalid => exact Except.noConfusion h
  | valid j =>
    cases hdec : decodeTasks j with
    | none =>
      have hload : loadTasks (.valid j) = .error .dataCorruption := by
        simp [loadTasks, hdec]
      rw [hload] at h
      exact Except.noConfusion h
    | some ts' =>
      have hload : loadTasks (.valid j) = .ok ts' := by
        simp [loadTasks, hdec]
      rw [hload] at h
      cases h
      cases j with
      | arr elems =>
        exact decodeTaskList_year_le elems _ (by simpa [decodeTasks] using hdec)
      | null =>
        simp only [decodeTasks] at hdec
        cases hdec
        simp
      | bool b => exact Option.noConfusion hdec
      | num n => exact Option.noConfusion hdec
      | str s => exact Option.noConfusion hdec
      | obj fields => exact Option.noConfusion hdec

/-! ## The claims -/

lemma addTask_self_mem (tasks : List Task) (title deadline : String) :
    ∃ t ∈ (addTask tasks title deadline).1,
      t.id = (addTask tasks title deadline).2 := by
  refine ⟨_, List.mem_append_right tasks (List.mem_singleton_self _), rfl⟩

/-- C1 as stated is false: `newID = maxID + 1` is a Go `int` addition, and
`loadTasks` does not validate identifiers, so a loadable collection holding
the maximal `int64` identifier 9223372036854775807 makes `add` assign the
wrapped identifier -9223372036854775808 — not max + 1, and smaller than the
existing identifier. -/
theorem addTask_id_overflow_counterexample :
    (addTask [⟨9223372036854775807, "a", false, zeroDate⟩] "b" "").2 =
      -9223372036854775808 ∧
    ¬ (addTask [⟨9223372036854775807, "a", false, zeroDate⟩] "b" "").2 =
        9223372036854775807 + 1 ∧
    ¬ ∀ t ∈ [(⟨9223372036854775807, "a", false, zeroDate⟩ : Task)],
        t.id < (addTask [⟨9223372036854775807, "a", false, zeroDate⟩]
          "b" "").2 := by
  refine ⟨by decide, by decide, ?_⟩
  intro hall
  exact absurd (hall _ (List.mem_singleton_self _)) (by decide)

/-- C1 amended: `addTask` assigns identifier 1 to an empty collection and
the 64-bit wrap of (max existing identifier) + 1 otherwise; when every
existing identifier is a Go `int` below the maximal `int64` value — so the
increment cannot overflow — the new identifier equals max + 1 and exceeds
every existing one, and identifiers assigned by successive `add` calls are
strictly increasing while they stay below that bound. -/
theorem addTask_identifier_allocation (tasks : List Task)
    (title deadline : String)
    (hrange : ∀ t ∈ tasks,
      -9223372036854775808 ≤ t.id ∧ t.id < 9223372036854775807) :
    (tasks = [] → (addTask tasks title deadline).2 = 1) ∧
    (∀ m : Int, (tasks.map Task.id).max? = some m →
      (addTask tasks title deadline).2 = m + 1) ∧
    (∀ t ∈ tasks, t.id < (addTask tasks title deadline).2) ∧
    (∀ title2 deadline2 : String,
      (∀ t ∈ (addTask tasks title deadline).1,
        -9223372036854775808 ≤ t.id ∧ t.id < 9223372036854775807) →
      (addTask tasks title deadline).2 <
        (addTask (addTask tasks title deadline).1 title2 deadline2).2) := by
  refine ⟨?_, ?_, addTask_lt_newID tasks title deadline hrange, ?_⟩
  · rintro rfl
    rfl
  · intro m hm
    obtain ⟨u, hu, huid⟩ := List.mem_map.mp (max?_mem_ids tasks m hm)
    obtain ⟨hlo, hhi⟩ := hrange u hu
    rw [huid] at hlo hhi
    rw [addTask_newID_eq, hm]
    exact wrapInt64_eq_self _ (by omega) (by omega)
  · intro title2 deadline2 hrange2
    obtain ⟨t, htmem, htid⟩ := addTask_self_mem tasks title deadline
    calc (addTask tasks title deadline).2 = t.id := htid.symm
      _ < _ := addTask_lt_newID _ title2 deadline2 hrange2 t htmem

theorem addTask_identifier_allocation_witness :
    (addTask [] "a" "").2 = 1 ∧
    (addTask [⟨2, "a", false, zeroDate⟩, ⟨5, "b", true, zeroDate⟩]
      "c" "").2 = 6 ∧
    (2 : Int) < (addTask [⟨2, "a", false, zeroDate⟩, ⟨5, "b", true, zeroDate⟩]
      "c" "").2 ∧
    (addTask [⟨2, "a", false, zeroDate⟩, ⟨5, "b", true, zeroDate⟩]
        "c" "").2 <
      (addTask (addTask [⟨2, "a", false, zeroDate⟩, ⟨5, "b", true, zeroDate⟩]
        "c" "").1 "d" "").2 := by
  refine ⟨(addTask_identifier_allocation [] "a" "" (by decide)).1 rfl,
    (addTask_identifier_allocation _ "c" "" (by decide)).2.1 5 (by decide),
    (addTask_identifier_allocation _ "c" "" (by decide)).2.2.1
      ⟨2, "a", false, zeroDate⟩ (by decide),
    (addTask_identifier_allocation _ "c" "" (by decide)).2.2.2 "d" ""
      (by decide)⟩



/-- C3: for an identifier matching no task, both `deleteTask` and `markDone`
report found = false and leave the collection unchanged. -/
theorem remove_markDone_not_found (ts : List Task) (id : Int)
    (h : ∀ t ∈ ts, t.id ≠ id) :
    deleteTask ts id = (ts, false) ∧ markDone ts id = (ts, false) :=
  ⟨deleteTask_not_found ts id h, markDone_not_found ts id h⟩

theorem remove_markDone_not_found_witness :
    deleteTask [⟨1, "a", false, zeroDate⟩] 2 =
      ([⟨1, "a", false, zeroDate⟩], false) ∧
    markDone [⟨1, "a", false, zeroDate⟩] 2 =
      ([⟨1, "a", false, zeroDate⟩], false) :=
  remove_markDone_not_found [⟨1, "a", false, zeroDate⟩] 2 (by decide)

/-- C4: `loadTasks` yields the empty collection when the file is missing,
and a `dataCorruption` error when the file exists but its contents fail to
parse, either as JSON text or as a `[]Task` value. -/
theorem loadTasks_missing_and_corrupt :
    loadTasks .missing = .ok [] ∧
    loadTasks .invalid = .error .dataCorruption ∧
    (∀ j : Json, decodeTasks j = none →
      loadTasks (.valid j) = .error .dataCorruption) := by
  refine ⟨rfl, rfl, ?_⟩
  intro j hj
  simp [loadTasks, hj]

theorem loadTasks_missing_and_corrupt_witness :
    loadTasks (.valid (Json.num 0)) = .error .dataCorruption :=
  loadTasks_missing_and_corrupt.2.2 (Json.num 0) rfl

/-- C8: marking an already-done task done again (identifiers being unique,
as the allocation policy guarantees) leaves the collection unchanged and
still reports found = true. -/
theorem markDone_idempotent (ts : List Task) (id : Int) (t : Task)
    (hnodup : (ts.map Task.id).Nodup) (hmem : t ∈ ts) (hid : t.id = id)
    (hdone : t.done = true) : markDone ts id = (ts, true) := by
  induction ts with
  | nil => cases hmem
  | cons a ts ih =>
    rcases List.mem_cons.mp hmem with rfl | hmem'
    · simp only [markDone, if_pos hid]
      obtain ⟨i1, t1, d1, l1⟩ := t
      simp only at hdone
      subst hdone
      rfl
    · have hneq : ¬(a.id = id) := by
        intro he
        have : a.id ∈ ts.map Task.id := by
          rw [he, ← hid]
          exact List.mem_map_of_mem Task.id hmem'
        exact (List.nodup_cons.mp hnodup).1 this
      simp only [markDone, if_neg hneq]
      rw [ih (List.nodup_cons.mp hnodup).2 hmem']

theorem markDone_idempotent_witness :
    markDone [⟨1, "a", true, zeroDate⟩] 1 =
      ([⟨1, "a", true, zeroDate⟩], true) :=
  markDone_idempotent [⟨1, "a", true, zeroDate⟩] 1 ⟨1, "a", true, zeroDate⟩
    (by decide) (by decide) rfl rfl

/-- C9: `markDone` preserves the length and order of the collection, keeps
every task's identifier, title and deadline, and changes no task other than
one whose identifier matches. -/
theorem markDone_frame (ts : List Task) (id : Int) :
    List.Forall₂ (fun a b => b.id = a.id ∧ b.title = a.title ∧
        b.deadline = a.deadline ∧ (a.id ≠ id → b = a))
      ts (markDone ts id).1 := by
  induction ts with
  | nil => exact List.Forall₂.nil
  | cons a ts ih =>
    by_cases ha : a.id = id
    · simp only [markDone, if_pos ha]
      refine List.Forall₂.cons ⟨rfl, rfl, rfl, fun hne => absurd ha hne⟩ ?_
      exact List.forall₂_same.mpr fun x _ => ⟨rfl, rfl, rfl, fun _ => rfl⟩
    · simp only [markDone, if_neg ha]
      exact List.Forall₂.cons ⟨rfl, rfl, rfl, fun _ => rfl⟩ ih



/-- C2: saving a collection of representable tasks and loading the result
reproduces the collection exactly: identifiers, titles, flags, deadlines and
order. -/
theorem save_load_roundtrip (ts : List Task)
    (h : ∀ t ∈ ts, validDate t.deadline) :
    saveTasks ts .ok = some (.valid (encodeTasks ts)) ∧
    loadTasks (.valid (encodeTasks ts)) = .ok ts := by
  constructor
  · have hall : ts.all (fun t => t.deadline.year ≤ 9999) = true := by
      rw [List.all_eq_true]
      intro t ht
      simpa using (h t ht).1
    simp [saveTasks, hall]
  · simp [loadTasks, decodeTasks_encodeTasks ts h]

theorem save_load_roundtrip_witness :
    saveTasks [⟨1, "a", false, ⟨2024, 3, 15⟩⟩] .ok =
      some (.valid (encodeTasks [⟨1, "a", false, ⟨2024, 3, 15⟩⟩])) ∧
    loadTasks (.valid (encodeTasks [⟨1, "a", false, ⟨2024, 3, 15⟩⟩])) =
      .ok [⟨1, "a", false, ⟨2024, 3, 15⟩⟩] :=
  save_load_roundtrip [⟨1, "a", false, ⟨2024, 3, 15⟩⟩] (by decide)

/-- C6 as stated is false: `addTask` with the empty string as title appends
a task whose title is the empty string. -/
theorem add_empty_title_counterexample :
    (addTask [] "" "").1 =
      [{ id := 1, title := "", done := false, deadline := zeroDate }] ∧
    ∃ t ∈ (addTask [] "" "").1, t.title = "" := by
  refine ⟨rfl, ⟨{ id := 1, title := "", done := false, deadline := zeroDate },
    by decide, rfl⟩⟩

/-- C6 amended: `add` preserves non-emptiness of titles — if every existing
title is non-empty and the given title is non-empty, every title in the
result of `addTask` is non-empty; the code itself never rejects an empty
title argument. -/
theorem addTask_preserves_nonempty_titles (ts : List Task)
    (title dl : String) (h1 : title ≠ "") (h2 : ∀ t ∈ ts, t.title ≠ "") :
    ∀ t ∈ (addTask ts title dl).1, t.title ≠ "" := by
  intro t ht
  simp only [addTask, List.mem_append, List.mem_singleton] at ht
  rcases ht with hh | rfl
  · exact h2 t hh
  · simpa using h1

theorem addTask_preserves_nonempty_titles_witness :
    ({ id := 1, title := "a", done := false, deadline := zeroDate } :
      Task).title ≠ "" :=
  addTask_preserves_nonempty_titles [] "a" "" (by decide)
    (by decide) _ (by decide)

/-- C10: the deadline string `"0001-01-01"` parses to the Go zero time, so
`addTask` with it produces exactly the same result as `addTask` with no
deadline; the appended task stores the zero date, for which the `list`
command prints no deadline suffix. -/
theorem add_zero_date_equals_absent (ts : List Task) (title : String) :
    addTask ts title "0001-01-01" = addTask ts title "" ∧
    (addTask ts title "0001-01-01").1.getLast? =
      some { id := (addTask ts title "0001-01-01").2, title := title,
             done := false, deadline := zeroDate } ∧
    deadlineSuffix { id := (addTask ts title "0001-01-01").2, title := title,
                     done := false, deadline := zeroDate } = "" := by
  have hparse : parseGoDate "0001-01-01" = some zeroDate := rfl
  refine ⟨by simp [addTask, hparse], ?_, rfl⟩
  have hlist : (addTask ts title "0001-01-01").1 =
      ts ++ [{ id := (addTask ts title "0001-01-01").2, title := title,
               done := false, deadline := zeroDate }] := by
    simp [addTask, hparse]
  rw [hlist]
  simp



/-- C7 as stated is false: with a corrupted store file, every command —
`list` and `clear` included — exits 1 at the load step; and `clear` exits 1
when the final write fails. -/
theorem list_clear_nonzero_exit_counterexample :
    (runCLI .invalid ["list"] .ok).exitCode = 1 ∧
    (runCLI .invalid ["clear"] .ok).exitCode = 1 ∧
    (runCLI .missing ["clear"] .writeError).exitCode = 1 := by
  refine ⟨rfl, rfl, rfl⟩

/-- C7 amended: `list` exits 0 whenever the load succeeds, regardless of the
disk's disposition (it never writes), and `clear` exits 0 whenever the load
succeeds and the write succeeds. -/
theorem list_clear_exit_zero (fs : FileState) (ts : List Task)
    (disk : DiskOutcome) (h : loadTasks fs = .ok ts) :
    (runCLI fs ["list"] disk).exitCode = 0 ∧
    (runCLI fs ["clear"] .ok).exitCode = 0 := by
  constructor
  · simp [runCLI, h, dispatch]
  · simp [runCLI, h, dispatch, clearTasks, saveTasks]

theorem list_clear_exit_zero_witness :
    (runCLI .missing ["list"] .ok).exitCode = 0 ∧
    (runCLI .missing ["clear"] .ok).exitCode = 0 :=
  list_clear_exit_zero .missing [] .ok rfl



/-- C5: a non-empty deadline string that fails to parse as `YYYY-MM-DD`
does not fail the add command: the task is appended with the zero (absent)
deadline, and the run exits 0 whenever the load and the final write
succeed. -/
theorem add_unparseable_deadline_lenient (ts : List Task) (title dl : String)
    (h1 : dl ≠ "") (h2 : parseGoDate dl = none) :
    (addTask ts title dl).1 =
      ts ++ [{ id := (addTask ts title dl).2, title := title, done := false,
               deadline := zeroDate }] ∧
    (∀ fs ts0, loadTasks fs = Except.ok ts0 →
      (runCLI fs ["add", title, dl] .ok).exitCode = 0) := by
  have hshape : ∀ ts0 : List Task, (addTask ts0 title dl).1 =
      ts0 ++ [{ id := (addTask ts0 title dl).2, title := title, done := false,
                deadline := zeroDate }] := by
    intro ts0
    simp [addTask, h1, h2]
  refine ⟨hshape ts, ?_⟩
  intro fs ts0 hload
  have hyears := loadTasks_year_le fs ts0 hload
  have hall : ((addTask ts0 title dl).1).all
      (fun t => t.deadline.year ≤ 9999) = true := by
    rw [hshape ts0, List.all_append, Bool.and_eq_true]
    constructor
    · rw [List.all_eq_true]
      intro t ht
      simpa using hyears t ht
    · rfl
  have hsave : saveTasks (addTask ts0 title dl).1 .ok =
      some (.valid (encodeTasks (addTask ts0 title dl).1)) := by
    simp [saveTasks, hall]
  simp [runCLI, hload, dispatch, hsave]

theorem add_unparseable_deadline_lenient_witness :
    (addTask [] "x" "soon").1 =
      [] ++ [{ id := (addTask [] "x" "soon").2, title := "x", done := false,
               deadline := zeroDate }] ∧
    (runCLI .missing ["add", "x", "soon"] .ok).exitCode = 0 :=
  ⟨(add_unparseable_deadline_lenient [] "x" "soon" (by decide) rfl).1,
   (add_unparseable_deadline_lenient [] "x" "soon" (by decide) rfl).2
     .missing [] rfl⟩

end Todo
